import Mathlib

/-!
Verification of the cypress-to-selenium translator (second source variant,
`src/unnamed/part_000` lines 693-1616, which the claims cite).

The TypeScript AST nodes the program inspects are modelled by the mutual
inductive family `Node`/`NodeList`/`PropList`/`OProp`.  Template literals are
not modelled (no claim exercises them), so the `ts.isTemplateLiteral` /
`ts.isNoSubstitutionTemplateLiteral` branches of the source collapse.
`getText` reconstructs source text (string literals are assumed to be written
with single quotes in the source).  JavaScript's possible non-termination
(the `extractChain` while loop, and the mutual recursion between the chain
translator and the structural walker) is modelled with a fuel parameter:
`none` means the run does not terminate or crashes on an `undefined` access.
-/

/-- Decimal digit character, as produced by JavaScript number-to-string. -/
def digitCh (n : Nat) : Char := Char.ofNat (48 + n)

/-- Decimal digits of `n` (fuel-indexed so that it is structural; `fuel = n+1`
always suffices because `n/10 < n` for `n ≥ 10`). -/
def natDecAux : Nat → Nat → List Char
  | 0, _ => []
  | f + 1, n => if n < 10 then [digitCh n] else natDecAux f (n / 10) ++ [digitCh (n % 10)]

/-- Decimal rendering of a natural number, as JavaScript template interpolation
`${tempVarIndex}` renders the counter. -/
def natToDec (n : Nat) : String := String.mk (natDecAux (n + 1) n)

/-- Is `c` a decimal digit character? -/
def chIsDigit (c : Char) : Bool := 48 ≤ c.toNat && c.toNat ≤ 57

/-- One escaped character of `escapeJavaString`: the source applies
`.replace(/\\/g,'\\\\').replace(/"/g,'\\"').replace(/\n/g,'\\n').replace(/\r/g,'\\r')`,
which is equivalent to this single character map (later stages never rewrite
characters introduced by earlier stages). -/
def escCh (c : Char) : List Char :=
  if c = '\\' then ['\\', '\\']
  else if c = '"' then ['\\', '"']
  else if c = '\n' then ['\\', 'n']
  else if c = '\r' then ['\\', 'r']
  else [c]

/-- Escape the characters of a cooked string-literal text. -/
def escCore (l : List Char) : List Char := l.flatMap escCh

/-- ASCII upper-casing of one character (JavaScript `toUpperCase` restricted to
the ASCII strings the translator feeds it). -/
def chUp (c : Char) : Char := if 97 ≤ c.toNat && c.toNat ≤ 122 then Char.ofNat (c.toNat - 32) else c

/-- JavaScript `method.toUpperCase()`. -/
def strUpper (s : String) : String := String.mk (s.data.map chUp)

/-- The single-quote character (written by code point to keep the sources
free of bare apostrophes). -/
def sqCh : Char := Char.ofNat 39

/-- JavaScript `val.replace(/['"]/g, '')`: drop every quote character. -/
def removeQuoteChars (s : String) : String :=
  String.mk (s.data.filter (fun c => !(c = '"' || c = sqCh)))

/-- JavaScript `t.replace(/^"(.*)"$/g, '$1')`: strip one pair of surrounding
double quotes when the whole string matches (`.` does not match a newline, so
a newline anywhere in the middle defeats the anchored match). -/
def stripOuterDQ (s : String) : String :=
  match s.data with
  | [] => s
  | c :: rest =>
    if c = '"' ∧ rest ≠ [] ∧ rest.getLast? = some '"' ∧ ('\n' ∉ rest.dropLast) then
      String.mk rest.dropLast
    else s

/-- JavaScript `t.replace(/^'(.*)'$/g, '$1')` (single-quote variant). -/
def stripOuterSQ (s : String) : String :=
  match s.data with
  | [] => s
  | c :: rest =>
    if c = sqCh ∧ rest ≠ [] ∧ rest.getLast? = some sqCh ∧ ('\n' ∉ rest.dropLast) then
      String.mk rest.dropLast
    else s

/-- Is `needle` a prefix of `hay`? (decidable, kernel-reducible) -/
def listPrefixB : List Char → List Char → Bool
  | [], _ => true
  | _ :: _, [] => false
  | a :: as, b :: bs => a = b && listPrefixB as bs

/-- Is `needle` a contiguous substring of `hay`? -/
def listInfixB (needle : List Char) : List Char → Bool
  | [] => listPrefixB needle []
  | c :: rest => listPrefixB needle (c :: rest) || listInfixB needle rest

/-- Does the string `hay` contain `needle` as a substring? -/
def strContains (hay needle : String) : Bool := listInfixB needle.data hay.data

/-- Replace every occurrence of `needle` by `repl`, scanning left to right
(JavaScript `String.prototype.replaceAll`); fuel-indexed to stay structural,
`fuel = hay.length + 1` suffices. -/
def replaceAllAux (needle repl : List Char) : Nat → List Char → List Char
  | 0, l => l
  | _ + 1, [] => []
  | f + 1, c :: rest =>
    if needle ≠ [] ∧ listPrefixB needle (c :: rest) then
      repl ++ replaceAllAux needle repl f ((c :: rest).drop needle.length)
    else
      c :: replaceAllAux needle repl f rest

/-- JavaScript `s.replaceAll(needle, repl)` for a non-empty needle. -/
def strReplaceAll (s needle repl : String) : String :=
  String.mk (replaceAllAux needle.data repl.data (s.data.length + 1) s.data)

/-- Split a character list into lines at `'\n'` (the separators are dropped;
an empty input yields one empty line, like JavaScript `split('\n')`). -/
def splitLines : List Char → List (List Char)
  | [] => [[]]
  | c :: rest =>
    let r := splitLines rest
    if c = '\n' then [] :: r else (c :: r.headD []) :: r.tail

/-- Rewrite the last occurrence of `"findElement"` in a newline-free line into
`"findElements"` (fuel-indexed scan; `fuel = line.length + 1` suffices).  A
position holds the last occurrence exactly when `"findElement"` starts there
and does not occur again after it. -/
def lineRFE : Nat → List Char → List Char
  | 0, l => l
  | _ + 1, [] => []
  | f + 1, c :: rest =>
    if listPrefixB "findElement".data (c :: rest) &&
       !(listInfixB "findElement".data ((c :: rest).drop 11)) then
      "findElements".data ++ (c :: rest).drop 11
    else c :: lineRFE f rest

/-- JavaScript `s.replace(/(.*)findElement/g, '$1findElements')`: `.` does not
match `\n` and `(.*)` is greedy, so each match runs from the scan position to
the **last** `findElement` of the current line; the effect is to rewrite the
last occurrence of `findElement` on each line into `findElements`. -/
def replaceFE (s : String) : String :=
  String.mk (List.intercalate ['\n'] ((splitLines s.data).map (fun l => lineRFE (l.length + 1) l)))

/-! ## The modelled TypeScript AST -/

mutual

/-- Expression/statement nodes of the translated TypeScript file.  `otherNode`
stands for any node kind the program does not inspect specifically (the
structural walker just recurses through its children). -/
inductive Node where
  | ident (name : String)
  | strLit (text : String)
  | numLit (text : String)
  | propAccess (obj : Node) (name : String)
  | call (callee : Node) (args : NodeList)
  | objLit (props : PropList)
  | arrowFn (body : Node)
  | block (stmts : NodeList)
  | exprStmt (e : Node)
  | ifStmt (cond : Node) (thenS : Node)
  | ifElseStmt (cond : Node) (thenS : Node) (elseS : Node)
  | forStmt (initTxt condTxt incrTxt : String) (body : Node)
  | whileStmt (cond : Node) (body : Node)
  | paren (e : Node)
  | otherNode (children : NodeList) (text : String)

/-- A list of nodes (kept as part of the mutual family so that all recursions
stay structural and kernel-reducible). -/
inductive NodeList where
  | nil
  | cons (head : Node) (tail : NodeList)

/-- A list of object-literal members. -/
inductive PropList where
  | nil
  | cons (head : OProp) (tail : PropList)

/-- An object-literal member: a property assignment `name: init`, or any other
member kind (which `ts.isPropertyAssignment` rejects). -/
inductive OProp where
  | assign (name : Node) (init : Node)
  | otherProp

end

/-- Embed an ordinary list of nodes into the mutual family. -/
def listToNL : List Node → NodeList
  | [] => .nil
  | h :: t => .cons h (listToNL t)

/-- Project a `NodeList` back to an ordinary list. -/
def nlToList : NodeList → List Node
  | .nil => []
  | .cons h t => h :: nlToList t

/-- Project a `PropList` back to an ordinary list. -/
def plToList : PropList → List OProp
  | .nil => []
  | .cons h t => h :: plToList t

theorem nlToList_listToNL (l : List Node) : nlToList (listToNL l) = l := by
  induction l with
  | nil => rfl
  | cons h t ih => simp [listToNL, nlToList, ih]

mutual

/-- Source-text reconstruction (`node.getText()` in the program).  String
literals are assumed written with single quotes; this is a rendering choice
for text the program carries through opaquely. -/
def getText : Node → String
  | .ident n => n
  | .strLit s => String.mk [sqCh] ++ s ++ String.mk [sqCh]
  | .numLit t => t
  | .propAccess o n => getText o ++ "." ++ n
  | .call c a => getText c ++ "(" ++ String.intercalate ", " (getTextNL a) ++ ")"
  | .objLit ps => "\x7b " ++ String.intercalate ", " (getTextPL ps) ++ " \x7d"
  | .arrowFn b => "() => " ++ getText b
  | .block ss => "\x7b " ++ String.intercalate "; " (getTextNL ss) ++ " \x7d"
  | .exprStmt e => getText e
  | .ifStmt c t => "if (" ++ getText c ++ ") " ++ getText t
  | .ifElseStmt c t e => "if (" ++ getText c ++ ") " ++ getText t ++ " else " ++ getText e
  | .forStmt i c n b => "for (" ++ i ++ "; " ++ c ++ "; " ++ n ++ ") " ++ getText b
  | .whileStmt c b => "while (" ++ getText c ++ ") " ++ getText b
  | .paren e => "(" ++ getText e ++ ")"
  | .otherNode _ t => t

/-- `getText` mapped over a node list. -/
def getTextNL : NodeList → List String
  | .nil => []
  | .cons h t => getText h :: getTextNL t

/-- `getText` mapped over an object-literal member list. -/
def getTextPL : PropList → List String
  | .nil => []
  | .cons h t => getTextProp h :: getTextPL t

/-- `getText` of an object-literal member. -/
def getTextProp : OProp → String
  | .assign n i => getText n ++ ": " ++ getText i
  | .otherProp => ""

end

/-- `escapeJavaString(node)` of the second variant (lines 740-782): a string
literal is re-quoted with Java escapes applied to its cooked text; template
literals are not modelled; every other node falls back to `getText`. -/
def escapeJavaString (n : Node) : String :=
  match n with
  | .strLit s => "\"" ++ String.mk (escCore s.data) ++ "\""
  | _ => getText n

mutual

/-- A size measure on nodes (each node counts at least 1). -/
def nsize : Node → Nat
  | .ident _ => 1
  | .strLit _ => 1
  | .numLit _ => 1
  | .propAccess o _ => nsize o + 1
  | .call c a => nsize c + nsizeNL a + 1
  | .objLit ps => nsizePL ps + 1
  | .arrowFn b => nsize b + 1
  | .block ss => nsizeNL ss + 1
  | .exprStmt e => nsize e + 1
  | .ifStmt c t => nsize c + nsize t + 1
  | .ifElseStmt c t e => nsize c + nsize t + nsize e + 1
  | .forStmt _ _ _ b => nsize b + 1
  | .whileStmt c b => nsize c + nsize b + 1
  | .paren e => nsize e + 1
  | .otherNode cs _ => nsizeNL cs + 1

/-- Sum of sizes of a node list. -/
def nsizeNL : NodeList → Nat
  | .nil => 0
  | .cons h t => nsize h + nsizeNL t

/-- Sum of sizes of an object-literal member list. -/
def nsizePL : PropList → Nat
  | .nil => 0
  | .cons h t => nsizeProp h + nsizePL t

/-- Size of an object-literal member. -/
def nsizeProp : OProp → Nat
  | .assign n i => nsize n + nsize i + 1
  | .otherProp => 1

end

/-- The children a node presents to `ts.forEachChild` (in source order).  For
an object literal the walker would visit the member nodes and then their
children; since members never translate to anything themselves, the member
children are presented directly. -/
def nodeChildren : Node → List Node
  | .ident _ => []
  | .strLit _ => []
  | .numLit _ => []
  | .propAccess o n => [o, .ident n]
  | .call c a => c :: nlToList a
  | .objLit ps => (plToList ps).flatMap (fun p => match p with
      | .assign n i => [n, i]
      | .otherProp => [])
  | .arrowFn b => [b]
  | .block ss => nlToList ss
  | .exprStmt e => [e]
  | .ifStmt c t => [c, t]
  | .ifElseStmt c t e => [c, t, e]
  | .forStmt _ _ _ b => [b]
  | .whileStmt c b => [c, b]
  | .paren e => [e]
  | .otherNode cs _ => nlToList cs

/-! ## Chain extraction (`extractChain`, lines 791-827) -/

/-- One extracted chain step: a verb name and its argument expressions. -/
structure ChainItem where
  method : String
  args : List Node

/-- The body of `extractChain`'s while loop, fuel-indexed.  `chain.unshift` is
the cons onto the accumulator.  Note the faithful modelling of the case of a
call whose callee is neither a property access nor an identifier: `method`
stays `''`, an item is still unshifted, and — crucially — `current` is *not*
advanced, so the loop repeats forever on the same node (the source's inner
`else break` is unreachable because the loop condition already requires a
call or property access). -/
def extractChainAux : Nat → Node → List ChainItem → Option (List ChainItem)
  | 0, _, _ => none
  | fuel + 1, current, chain =>
    match current with
    | .call callee args =>
      match callee with
      | .propAccess recv nm => extractChainAux fuel recv (⟨nm, nlToList args⟩ :: chain)
      | .ident nm => extractChainAux fuel (.ident nm) (⟨nm, nlToList args⟩ :: chain)
      | _ => extractChainAux fuel (.call callee args) (⟨"", nlToList args⟩ :: chain)
    | .propAccess recv nm => extractChainAux fuel recv (⟨nm, []⟩ :: chain)
    | _ => some chain

/-- `extractChain(callExpr)`: run the loop with enough fuel for every
terminating execution (each productive iteration moves strictly inward, so
`nsize e + 1` iterations suffice; `none` therefore means the JavaScript loop
runs forever). -/
def extractChain (e : Node) : Option (List ChainItem) :=
  extractChainAux (nsize e + 1) e []

/-! ## Written chains and extraction correctness -/

/-- One written verb of a fluent chain: either a call `.verb(args)` (a call
expression whose callee is a property access) or a bare property access
`.verb`. -/
inductive Link where
  | callLink (verb : String) (args : List Node)
  | propLink (verb : String)

/-- Attach one written verb to a receiver expression. -/
def applyLink (e : Node) : Link → Node
  | .callLink v args => .call (.propAccess e v) (listToNL args)
  | .propLink v => .propAccess e v

/-- The expression denoted by `recv.v1(..).v2(..)...vN(..)` with the links
listed in written (left-to-right) order. -/
def mkChainExpr (recv : String) (links : List Link) : Node :=
  links.foldl applyLink (.ident recv)

/-- The `ChainItem` a written verb extracts to. -/
def linkItem : Link → ChainItem
  | .callLink v args => ⟨v, args⟩
  | .propLink v => ⟨v, []⟩


theorem extractChainAux_exact (links : List Link) :
    ∀ fuel recv acc, links.length + 1 ≤ fuel →
      extractChainAux fuel (mkChainExpr recv links) acc =
        some (links.map linkItem ++ acc) := by
  induction links using List.reverseRecOn with
  | nil =>
    intro fuel recv acc hf
    cases fuel with
    | zero => omega
    | succ f => simp [mkChainExpr, extractChainAux]
  | append_singleton ls l ih =>
    intro fuel recv acc hf
    cases fuel with
    | zero => omega
    | succ f =>
    have hm : mkChainExpr recv (ls ++ [l]) = applyLink (mkChainExpr recv ls) l := by
      simp [mkChainExpr]
    rw [hm]
    have hlen : ls.length + 1 ≤ f := by
      simp only [List.length_append, List.length_singleton] at hf; omega
    cases l with
    | callLink v args =>
      simp only [applyLink, extractChainAux, nlToList_listToNL]
      rw [ih f recv (⟨v, args⟩ :: acc) hlen]
      simp [linkItem]
    | propLink v =>
      simp only [applyLink, extractChainAux]
      rw [ih f recv (⟨v, []⟩ :: acc) hlen]
      simp [linkItem]

theorem nsize_applyLink (e : Node) (l : Link) : nsize e + 1 ≤ nsize (applyLink e l) := by
  cases l <;> (simp only [applyLink, nsize]; omega)

theorem length_le_nsize_mkChainExpr (recv : String) (links : List Link) :
    links.length + 1 ≤ nsize (mkChainExpr recv links) + 1 := by
  induction links using List.reverseRecOn with
  | nil => simp [mkChainExpr, nsize]
  | append_singleton ls l ih =>
    have hm : mkChainExpr recv (ls ++ [l]) = applyLink (mkChainExpr recv ls) l := by
      simp [mkChainExpr]
    have := nsize_applyLink (mkChainExpr recv ls) l
    rw [hm]
    simp only [List.length_append, List.length_singleton]
    omega

theorem extractChainAux_mono :
    ∀ fuel fuel' e acc res, extractChainAux fuel e acc = some res → fuel ≤ fuel' →
      extractChainAux fuel' e acc = some res := by
  intro fuel
  induction fuel with
  | zero => intro fuel' e acc res h _; simp [extractChainAux] at h
  | succ f ih =>
    intro fuel' e acc res h hle
    cases fuel' with
    | zero => omega
    | succ f' =>
    have hf : f ≤ f' := by omega
    cases e <;>
      first
      | (rename_i callee args
         cases callee <;> simp only [extractChainAux] at h ⊢ <;> exact ih _ _ _ _ h hf)
      | (simp only [extractChainAux] at h ⊢; exact ih _ _ _ _ h hf)
      | (simp only [extractChainAux] at h ⊢; exact h)

/-- C1: for every right-nested call/property-access chain of N verbs written
left to right, `extractChain` returns exactly those N `ChainItem`s, with the
verbs in the same left-to-right written order (innermost receiver first,
outermost call last); and for a bare receiver identifier with no calls it
returns the empty list. -/
theorem extractChain_ordered (recv : String) (links : List Link) :
    extractChain (mkChainExpr recv links) = some (links.map linkItem) ∧
      (links.map linkItem).length = links.length ∧
      extractChain (.ident recv) = some [] := by
  refine ⟨?_, by simp, rfl⟩
  have h := extractChainAux_exact links (links.length + 1) recv []
  rw [extractChain]
  have := length_le_nsize_mkChainExpr recv links
  have h2 := extractChainAux_mono (links.length + 1) (nsize (mkChainExpr recv links) + 1)
    (mkChainExpr recv links) [] (links.map linkItem ++ []) (h (le_refl _)) (by omega)
  simpa using h2

/-- The expression `f()()`: a call whose callee is itself a call.  On this
node `extractChain`'s loop never advances `current` (the callee is neither a
property access nor an identifier), so the loop runs forever. -/
def doubleCallNode : Node := .call (.call (.ident "f") .nil) .nil

theorem extractChainAux_doubleCall_none :
    ∀ fuel acc, extractChainAux fuel doubleCallNode acc = none := by
  intro fuel
  induction fuel with
  | zero => intro acc; rfl
  | succ f ih => intro acc; simpa [doubleCallNode, extractChainAux] using ih _

/-- `extractChain`'s loop, run on `e` from an empty accumulator, exits after
finitely many iterations. -/
def ExtractTerminates (e : Node) : Prop := ∃ fuel, (extractChainAux fuel e []).isSome

/-- C4 counterexample: chain extraction does **not** terminate on every input
expression node: on `f()()` the while loop never advances `current` (the
source's inner `else break` is unreachable), so extraction loops forever. -/
theorem extractChain_not_total : ¬ ExtractTerminates doubleCallNode := by
  rintro ⟨fuel, h⟩
  rw [extractChainAux_doubleCall_none fuel []] at h
  simp at h

/-- The walked spine of `e` contains no call expression whose callee is
neither an identifier nor a property access (the one shape on which the
extraction loop gets stuck). -/
def spineGood : Node → Bool
  | .call (.propAccess recv _) _ => spineGood recv
  | .call (.ident _) _ => true
  | .call _ _ => false
  | .propAccess recv _ => spineGood recv
  | _ => true

/-- Is the node a call expression or a property access (the loop condition of
`extractChain`)? -/
def isChainShape : Node → Bool
  | .call _ _ => true
  | .propAccess _ _ => true
  | _ => false

theorem extractChainAux_good_isSome :
    ∀ fuel e acc, spineGood e = true → nsize e < fuel →
      (extractChainAux fuel e acc).isSome := by
  intro fuel
  induction fuel with
  | zero => intro e acc _ h; omega
  | succ f ih =>
    intro e acc hg hs
    cases e with
    | call callee args =>
      cases callee with
      | propAccess recv nm =>
        simp only [extractChainAux]
        refine ih recv _ (by simpa [spineGood] using hg) ?_
        simp only [nsize] at hs ⊢
        omega
      | ident nm =>
        simp only [extractChainAux]
        refine ih (.ident nm) _ (by rfl) ?_
        simp only [nsize] at hs ⊢
        omega
      | strLit s => simp [spineGood] at hg
      | numLit s => simp [spineGood] at hg
      | call c a => simp [spineGood] at hg
      | objLit ps => simp [spineGood] at hg
      | arrowFn b => simp [spineGood] at hg
      | block ss => simp [spineGood] at hg
      | exprStmt e => simp [spineGood] at hg
      | ifStmt c t => simp [spineGood] at hg
      | ifElseStmt c t e => simp [spineGood] at hg
      | forStmt i c n b => simp [spineGood] at hg
      | whileStmt c b => simp [spineGood] at hg
      | paren e => simp [spineGood] at hg
      | otherNode cs t => simp [spineGood] at hg
    | propAccess recv nm =>
      simp only [extractChainAux]
      refine ih recv _ (by simpa [spineGood] using hg) ?_
      simp only [nsize] at hs ⊢
      omega
    | ident n => simp [extractChainAux]
    | strLit s => simp [extractChainAux]
    | numLit s => simp [extractChainAux]
    | objLit ps => simp [extractChainAux]
    | arrowFn b => simp [extractChainAux]
    | block ss => simp [extractChainAux]
    | exprStmt e => simp [extractChainAux]
    | ifStmt c t => simp [extractChainAux]
    | ifElseStmt c t e => simp [extractChainAux]
    | forStmt i c n b => simp [extractChainAux]
    | whileStmt c b => simp [extractChainAux]
    | paren e => simp [extractChainAux]
    | otherNode cs t => simp [extractChainAux]

/-- C4 (amended): chain extraction terminates on **every** input expression
node `e` whose walked spine contains no call with a callee that is itself
neither an identifier nor a property access (`spineGood`), real chains
included; and whenever the walk reaches a node `e2` that is neither a call
expression nor a property access, extraction stops there and returns the
items collected so far (silent truncation, no error).  (As stated the claim
is false: on `f()()` — a call whose callee is a call — the loop never
advances and extraction diverges, see `extractChain_not_total`.) -/
theorem extractChain_terminates_on_good_spine (e e2 : Node) (acc : List ChainItem) (fuel : Nat)
    (hg : spineGood e = true) (hc : isChainShape e2 = false) :
    (extractChain e).isSome ∧ extractChainAux (fuel + 1) e2 acc = some acc := by
  constructor
  · exact extractChainAux_good_isSome (nsize e + 1) e [] hg (by omega)
  · cases e2 <;> first
      | rfl
      | simp [isChainShape] at hc

/-- C4 amendment witness: termination at an actual chain `cy.get('#a')` (the
loop runs two productive iterations there) and truncation at a bare
identifier. -/
theorem extractChain_terminates_on_good_spine_witness :
    spineGood (mkChainExpr "cy" [.callLink "get" [.strLit "#a"]]) = true ∧
      isChainShape (.ident "x") = false ∧
      ((extractChain (mkChainExpr "cy" [.callLink "get" [.strLit "#a"]])).isSome ∧
        extractChainAux 1 (.ident "x") [] = some []) := by
  refine ⟨rfl, rfl, extractChain_terminates_on_good_spine
    (mkChainExpr "cy" [.callLink "get" [.strLit "#a"]]) (.ident "x") [] 0 rfl rfl⟩

theorem extractChainAux_acc_suffix :
    ∀ fuel e acc res, extractChainAux fuel e acc = some res →
      ∃ pre, res = pre ++ acc := by
  intro fuel
  induction fuel with
  | zero => intro e acc res h; simp [extractChainAux] at h
  | succ f ih =>
    intro e acc res h
    cases e with
    | call callee args =>
      cases callee <;>
        · simp only [extractChainAux] at h
          obtain ⟨pre, rfl⟩ := ih _ _ _ h
          exact ⟨_, List.append_cons _ _ _⟩
    | propAccess recv nm =>
      simp only [extractChainAux] at h
      obtain ⟨pre, rfl⟩ := ih _ _ _ h
      exact ⟨_, List.append_cons _ _ _⟩
    | ident n => exact ⟨[], by simpa [extractChainAux] using h.symm⟩
    | strLit s => exact ⟨[], by simpa [extractChainAux] using h.symm⟩
    | numLit s => exact ⟨[], by simpa [extractChainAux] using h.symm⟩
    | objLit ps => exact ⟨[], by simpa [extractChainAux] using h.symm⟩
    | arrowFn b => exact ⟨[], by simpa [extractChainAux] using h.symm⟩
    | block ss => exact ⟨[], by simpa [extractChainAux] using h.symm⟩
    | exprStmt e => exact ⟨[], by simpa [extractChainAux] using h.symm⟩
    | ifStmt c t => exact ⟨[], by simpa [extractChainAux] using h.symm⟩
    | ifElseStmt c t e => exact ⟨[], by simpa [extractChainAux] using h.symm⟩
    | forStmt i c n b => exact ⟨[], by simpa [extractChainAux] using h.symm⟩
    | whileStmt c b => exact ⟨[], by simpa [extractChainAux] using h.symm⟩
    | paren e => exact ⟨[], by simpa [extractChainAux] using h.symm⟩
    | otherNode cs t => exact ⟨[], by simpa [extractChainAux] using h.symm⟩

/-- C10: whenever the walker hands a call-expression node to `extractChain`
and extraction returns, the returned `ChainItem` list is non-empty (the first
loop iteration of a call expression always unshifts an item and the
accumulator never shrinks), so the chain translator's dispatch on
`chain[0].method` never reads a missing element. -/
theorem extractChain_call_nonempty (callee : Node) (args : NodeList)
    (res : List ChainItem) (h : extractChain (.call callee args) = some res) :
    res ≠ [] := by
  rw [extractChain] at h
  generalize nsize (.call callee args) = m at h
  simp only [extractChainAux] at h
  cases callee <;>
    · obtain ⟨pre, rfl⟩ := extractChainAux_acc_suffix _ _ _ _ h
      simp

/-- C10 witness at a concrete call expression. -/
theorem extractChain_call_nonempty_witness :
    extractChain (.call (.propAccess (.ident "cy") "get") (listToNL [.strLit "#a"])) =
      some [⟨"get", [.strLit "#a"]⟩] ∧
      ([⟨"get", [Node.strLit "#a"]⟩] : List ChainItem) ≠ [] :=
  ⟨rfl, extractChain_call_nonempty (.propAccess (.ident "cy") "get") (listToNL [.strLit "#a"])
    [⟨"get", [.strLit "#a"]⟩] rfl⟩

/-! ## Translator state

The process-wide mutable variables of the source (`tempVarIndex`,
`indentDepth`) are threaded explicitly, together with the `output.value`
buffers of the live `createVisitNode` closures (an arena indexed by slot
number).  `decls` is a ghost, write-only trace recording each emitted
temp-variable declaration as (name stem, counter value at the declaration);
it never influences any output. -/

structure TransSt where
  tempVarIndex : Nat
  indentDepth : Nat
  outputs : List String
  decls : List (String × Nat)
deriving Repr, DecidableEq

/-- `TAB_SIZE` of the source. -/
def TAB_SIZE : Nat := 4

/-- `getIndent()`. -/
def getIndent (s : TransSt) : String := String.mk (List.replicate (TAB_SIZE * s.indentDepth) ' ')

/-- `indentDepth++`. -/
def incIndent (s : TransSt) : TransSt := { s with indentDepth := s.indentDepth + 1 }

/-- `indentDepth--`. -/
def decIndent (s : TransSt) : TransSt := { s with indentDepth := s.indentDepth - 1 }

/-- `tempVarIndex++`. -/
def bumpIdx (s : TransSt) : TransSt := { s with tempVarIndex := s.tempVarIndex + 1 }

/-- Ghost-record one emitted temp-variable declaration whose name is
`stem ++ natToDec idx`. -/
def recordDecl (stem : String) (idx : Nat) (s : TransSt) : TransSt :=
  { s with decls := (stem, idx) :: s.decls }

/-- Allocate a fresh `{ value: '' }` output object, returning its slot. -/
def newOutput (s : TransSt) : Nat × TransSt :=
  (s.outputs.length, { s with outputs := s.outputs ++ [""] })

/-- `output.value += txt` on slot `id`. -/
def appendOutput (id : Nat) (txt : String) (s : TransSt) : TransSt :=
  { s with outputs := s.outputs.set id (s.outputs.getD id "" ++ txt) }

/-- Read `output.value` of slot `id`. -/
def getOutput (id : Nat) (s : TransSt) : String := s.outputs.getD id ""

/-- `expr[expr.length - 1]` (the buffer is non-empty whenever the source reads
it; the default covers the unreachable empty case). -/
def lastFrag (l : List String) : String := l.getLastD ""

/-- `expr[expr.length - 1] = x`. -/
def setLast (l : List String) (x : String) : List String := l.dropLast ++ [x]

/-- `expr[expr.length - 1] += t`. -/
def addToLast (l : List String) (t : String) : List String := l.dropLast ++ [lastFrag l ++ t]

/-- A `createVisitNode(output, driverName, visitFunc)` closure, as data: the
slot of its output object, its receiver name, and the optional `visitFunc` it
captured. -/
inductive Visitor where
  | mk (outId : Nat) (driverName : String) (visitFunc : Option Visitor)

/-- The output slot of a visitor. -/
def Visitor.outId : Visitor → Nat
  | .mk o _ _ => o

/-- The receiver name of a visitor. -/
def Visitor.driverName : Visitor → String
  | .mk _ d _ => d

/-- `getVisitFunc()`: `visitFunc ?? visitNode` — the captured outer visitor if
there is one, the closure itself otherwise. -/
def Visitor.getVisitFunc : Visitor → Visitor
  | .mk o d none => .mk o d none
  | .mk _ _ (some p) => p

/-- `SPECIAL_KEY_MAP` (insertion order preserved). -/
def SPECIAL_KEY_MAP : List (String × String) :=
  [("{enter}", "Keys.ENTER"), ("{backspace}", "Keys.BACK_SPACE"), ("{esc}", "Keys.ESCAPE"),
   ("{del}", "Keys.DELETE"), ("{tab}", "Keys.TAB"), ("{space}", "\" \""),
   ("{leftarrow}", "Keys.ARROW_LEFT"), ("{rightarrow}", "Keys.ARROW_RIGHT"),
   ("{uparrow}", "Keys.ARROW_UP"), ("{downarrow}", "Keys.ARROW_DOWN"),
   ("{home}", "Keys.HOME"), ("{end}", "Keys.END"), ("{pagedown}", "Keys.PAGE_DOWN"),
   ("{pageup}", "Keys.PAGE_UP"), ("{ctrl}", "Keys.CONTROL"), ("{alt}", "Keys.ALT"),
   ("{shift}", "Keys.SHIFT"), ("{meta}", "Keys.META")]

/-- The `type` handler's special-key substitution:
`Object.keys(SPECIAL_KEY_MAP).forEach(key => typeText = typeText.replaceAll(key, " + VAL + "))`. -/
def applySpecialKeys (t : String) : String :=
  SPECIAL_KEY_MAP.foldl (fun acc kv => strReplaceAll acc kv.1 ("\" + " ++ kv.2 ++ " + \"")) t

/-- `restorationChain` (lines 1253-1260). -/
def restorationChain (item : ChainItem) : String :=
  "." ++ item.method ++ "(" ++ String.intercalate ", " (item.args.map getText) ++ ")"

/-- The per-step effect of `should('be.visible')` / `should('not.be.visible')`
(lines 1076-1087): rewrite the last fragment into a temp declaration, push the
assertion, push the temp variable, bump the counter. -/
def shouldAssert (assertMethod getConditionMethod : String) (expr : List String)
    (s : TransSt) : List String × TransSt :=
  let d := natToDec s.tempVarIndex
  let expr := setLast expr ("WebElement element" ++ d ++ " = " ++ lastFrag expr)
  let expr := expr ++
    ["AssertJUnit." ++ assertMethod ++ "(element" ++ d ++ "." ++ getConditionMethod ++ "())",
     "element" ++ d]
  (expr, bumpIdx (recordDecl "element" s.tempVarIndex s))

/-- The scanning loop of `convertExpectChainToJava` (lines 857-922), carrying
`target`, `matcher` and `args`; `.inl` is an early `return`.  The full chain
is kept for the unsupported-chain diagnostic.  The loop index advances by one
or (for `deep equal`) two, so it is fuel-indexed to stay structural;
`fuel = chain.length` suffices. -/
def expectLoop (full : List ChainItem) :
    Nat → List ChainItem → String → String → List Node → String ⊕ (String × String × List Node)
  | _, [], target, matcher, args => .inr (target, matcher, args)
  | 0, _ :: _, target, matcher, args => .inr (target, matcher, args)
  | fuel + 1, item :: rest, target, matcher, args =>
    let m := item.method
    if m = "expect" then
      match item.args with
      | [] => .inl "/* expect() without arguments */"
      | a :: _ => expectLoop full fuel rest (escapeJavaString a) matcher args
    else if m = "to" ∨ m = "be" ∨ m = "and" ∨ m = "have" ∨ m = "that" ∨ m = "with" then
      expectLoop full fuel rest target matcher args
    else if m = "true" then expectLoop full fuel rest target "isTrue" args
    else if m = "false" then expectLoop full fuel rest target "isFalse" args
    else if m = "null" ∨ m = "undefined" then expectLoop full fuel rest target "isNull" args
    else if m = "eq" ∨ m = "equal" then expectLoop full fuel rest target "equals" item.args
    else if m = "deep" then
      match rest with
      | next :: rest2 =>
        if next.method = "equal" ∨ next.method = "eq" then
          expectLoop full fuel rest2 target "equals" next.args
        else expectLoop full fuel rest target matcher args
      | [] => expectLoop full fuel rest target matcher args
    else if m = "lessThan" ∨ m = "greaterThan" then
      match item.args with
      | [] => .inl ("/* expect()." ++ m ++ "() without arguments */")
      | a :: _ =>
        expectLoop full fuel rest
          (target ++ " " ++ (if m = "lessThan" then "<" else ">") ++ " " ++ escapeJavaString a)
          "isTrue" args
    else
      .inl ("// Unsupported expect chain: " ++ String.intercalate "." (full.map (fun c => c.method)))

/-- `convertExpectChainToJava` (lines 847-949). -/
def convertExpectChainToJava (chain : List ChainItem) (s : TransSt) : String :=
  match chain with
  | [] => ""
  | _ =>
    match expectLoop chain chain.length chain "" "" [] with
    | .inl early => early
    | .inr (target, matcher, args) =>
      let code :=
        if matcher = "isTrue" then "AssertJUnit.assertTrue(" ++ target ++ ");"
        else if matcher = "isFalse" then "AssertJUnit.assertFalse(" ++ target ++ ");"
        else if matcher = "isNull" then "AssertJUnit.assertNull(" ++ target ++ ");"
        else if matcher = "equals" then
          let expected := match args with | [] => "/* missing expected */" | a :: _ => getText a
          "AssertJUnit.assertEquals(" ++ expected ++ ", " ++ target ++ ");"
        else "// Unsupported matcher in expect: " ++ matcher
      getIndent s ++ code

/-! ## The chain translator and structural walker (mutual, fuel-indexed)

All functions decrement the shared fuel on entry; `none` models a crash
(an `undefined` member access in the source) or fuel exhaustion — the
JavaScript functions have no other way to fail.  `registry` is
`ORIGINAL_COMMAND_LIST`. -/

mutual

/-- `convertChainToJava` (lines 836-842).  `chain[0]` of an empty chain would
crash (`undefined.method`): modelled as `none`. -/
def convertChainToJava (fuel : Nat) (registry : List String) (chain : List ChainItem)
    (visitFunc : Visitor) (driverName : String) (s : TransSt) : Option (String × TransSt) :=
  match fuel with
  | 0 => none
  | fuel + 1 =>
    match chain with
    | [] => none
    | item0 :: _ =>
      if item0.method = "expect" then
        some (convertExpectChainToJava chain s, s)
      else
        convertCyChainToJava fuel registry chain visitFunc driverName s

/-- `convertCyChainToJava` (lines 956-1247): seed the buffer with the receiver
name, run the step loop, then `expr.join(';\n' + getIndent()) + ';'`. -/
def convertCyChainToJava (fuel : Nat) (registry : List String) (chain : List ChainItem)
    (visitFunc : Visitor) (driverName : String) (s : TransSt) : Option (String × TransSt) :=
  match fuel with
  | 0 => none
  | fuel + 1 =>
    match convertCyLoop fuel registry visitFunc driverName 0 chain.length chain [driverName] s with
    | none => none
    | some (expr, s') => some (String.intercalate (";\n" ++ getIndent s') expr ++ ";", s')

/-- The `for (let i = 0; i < chain.length; i++)` loop of
`convertCyChainToJava`. -/
def convertCyLoop (fuel : Nat) (registry : List String) (visitFunc : Visitor)
    (driverName : String) (i len : Nat) (items : List ChainItem) (expr : List String)
    (s : TransSt) : Option (List String × TransSt) :=
  match fuel with
  | 0 => none
  | fuel + 1 =>
    match items with
    | [] => some (expr, s)
    | item :: rest =>
      match convertStep fuel registry visitFunc driverName i len item expr s with
      | none => none
      | some (expr', s') => convertCyLoop fuel registry visitFunc driverName (i + 1) len rest expr' s'

/-- The body of the `switch (method)` in `convertCyChainToJava` for one chain
item at index `i` of a chain of length `len` (lines 960-1243).  The `case
'contains'` guard falls through to the `get`/`find` case when the item is not
a final `contains` of a longer chain, exactly as the missing `break` does in
the source. -/
def convertStep (fuel : Nat) (registry : List String) (visitFunc : Visitor)
    (driverName : String) (i len : Nat) (item : ChainItem) (expr : List String)
    (s : TransSt) : Option (List String × TransSt) :=
  match fuel with
  | 0 => none
  | fuel + 1 =>
    if item.method = "contains" ∧ i ≠ 0 ∧ i = len - 1 then
      -- the last contains of a longer chain is an assertion (lines 962-975)
      match item.args with
      | [] => none
      | a :: _ =>
        let argText := escapeJavaString a
        let d := natToDec s.tempVarIndex
        let expr' := setLast expr ("WebElement element" ++ d ++ " = " ++ lastFrag expr)
        some (expr' ++ ["AssertJUnit.assertTrue(element" ++ d ++ ".getText().contains(" ++ argText ++ "))"],
          bumpIdx (recordDecl "element" s.tempVarIndex s))
    else if item.method = "contains" ∨ item.method = "get" ∨ item.method = "find" then
      -- element lookup (lines 976-988); `contains` switches to an XPath match
      match item.args with
      | [] => none
      | a :: _ =>
        let argText := escapeJavaString a
        let selectorExpr :=
          if item.method = "contains" then
            "By.xpath(\"//*[contains(text(), " ++ String.mk [sqCh] ++ stripOuterDQ argText ++
              String.mk [sqCh] ++ ")]\")"
          else "By.cssSelector(" ++ argText ++ ")"
        some (addToLast expr (".findElement(" ++ selectorExpr ++ ")"), s)
    else if item.method = "eq" then
      match item.args with
      | .numLit t :: _ =>
        some (addToLast (setLast expr (replaceFE (lastFrag expr))) (".get(" ++ t ++ ")"), s)
      | _ =>
        some (addToLast expr ("/* unsupported eq syntax(" ++ restorationChain item ++ ") */"), s)
    else if item.method = "first" then
      some (addToLast (setLast expr (replaceFE (lastFrag expr))) ".get(0)", s)
    else if item.method = "last" then
      let d := natToDec s.tempVarIndex
      let expr' := setLast expr ("List<WebElement> elements" ++ d ++ " = " ++ replaceFE (lastFrag expr))
      some (expr' ++ ["elements" ++ d ++ ".get(elements" ++ d ++ ".size() - 1)"],
        bumpIdx (recordDecl "elements" s.tempVarIndex s))
    else if item.method = "click" then
      some (addToLast expr ".click()", s)
    else if item.method = "type" then
      match item.args with
      | [] => none
      | a :: _ =>
        some (addToLast expr (".sendKeys(" ++ applySpecialKeys (escapeJavaString a) ++ ")"), s)
    else if item.method = "should" then
      match item.args with
      | .strLit condition :: _ =>
        if condition = "be.visible" then
          some (shouldAssert "assertTrue" "isDisplayed" expr s)
        else if condition = "not.be.visible" then
          some (shouldAssert "assertFalse" "isDisplayed" expr s)
        else if condition = "not.exist" then
          let temp := lastFrag expr
          some (setLast expr "try \x7b" ++
            ["    " ++ temp,
             "    AssertJUnit.fail(\"Element should not exist\")",
             "\x7d catch (NoSuchElementException e) \x7b\x7d"], s)
        else
          some (addToLast expr
            ("/* unsupported should condition: " ++ condition ++ "(" ++ restorationChain item ++ ") */"), s)
      | _ =>
        some (addToLast expr ("/* unsupported should syntax(" ++ restorationChain item ++ ") */"), s)
    else if item.method = "visit" then
      match item.args with
      | [] => none
      | a :: _ => some (addToLast expr (".get(" ++ escapeJavaString a ++ ")"), s)
    else if item.method = "request" then
      match item.args with
      | [] => none
      | options :: _ =>
        let expr := if i = 0 then [] else expr
        match options with
        | .strLit t =>
          some (expr ++
            ["HttpURLConnection conn = (HttpURLConnection) new URL(" ++
              escapeJavaString (.strLit t) ++ ").openConnection()",
             "conn.setRequestMethod(\"GET\")"], s)
        | .objLit props =>
          match requestScan fuel (plToList props) "" "GET" [] s with
          | none => none
          | some (url, mth, body, s') =>
            let expr := expr ++
              ["HttpURLConnection conn = (HttpURLConnection) new URL(" ++ url ++ ").openConnection()",
               "conn.setRequestMethod(\"" ++ strUpper mth ++ "\")"]
            if body = [] then some (expr, s')
            else
              some (expr ++ ["conn.setDoOutput(true)"] ++ body ++
                ["try(OutputStream os = conn.getOutputStream()) \x7b",
                 "    byte[] input = inputString.getBytes(\"utf-8\")",
                 "    os.write(input, 0, input.length)",
                 "\x7d"], s')
        | _ =>
          some (expr ++ ["/* unsupported request syntax(" ++ restorationChain item ++ ") */"], s)
    else if item.method = "then" then
      match item.args with
      | .arrowFn body :: _ =>
        let os := newOutput s
        let innerV := Visitor.mk os.1 driverName (some visitFunc)
        match visitNodes fuel registry innerV (nodeChildren body) os.2 with
        | none => none
        | some s2 => some (expr ++ [getOutput os.1 s2], s2)
      | _ =>
        some (expr ++ ["/* unsupported then syntax(" ++ restorationChain item ++ ") */"], s)
    else if item.method = "within" then
      -- lines 1200-1218: the counter is consumed before the callback check;
      -- the ghost declaration is recorded at allocation time, in the branch
      -- that will emit the `WebElement scopeElementN = ...` declaration.
      let parentSelector := lastFrag expr
      let tempVar := "scopeElement" ++ natToDec s.tempVarIndex
      match item.args with
      | .arrowFn body :: _ =>
        let s1 := bumpIdx (recordDecl "scopeElement" s.tempVarIndex s)
        let os := newOutput s1
        let innerV := Visitor.mk os.1 tempVar (some visitFunc)
        match visitNodes fuel registry innerV (nodeChildren body) os.2 with
        | none => none
        | some s3 =>
          some (setLast expr ("WebElement " ++ tempVar ++ " = " ++ parentSelector) ++
            [getOutput os.1 s3, tempVar], s3)
      | _ => some (expr, bumpIdx s)
    else if item.method = "wait" then
      match item.args with
      | [] =>
        some (addToLast expr ("/* unsupported wait syntax(" ++ restorationChain item ++ ") */"), s)
      | a :: _ =>
        some (expr ++ ["Thread.sleep(" ++ escapeJavaString a ++ ")", driverName], s)
    else
      if item.method ∈ registry then
        some (addToLast expr
          ("." ++ item.method ++ "(" ++ String.intercalate ", " (item.args.map getText) ++ ")"), s)
      else
        some (addToLast expr
          ("/* unsupported method: " ++ item.method ++ "(" ++ restorationChain item ++ ") */"), s)

/-- The `options.properties.forEach` scan of the `request` handler (lines
1111-1157), accumulating `url`, `method` and the `body` statement lines. -/
def requestScan (fuel : Nat) (props : List OProp) (url mth : String) (body : List String)
    (s : TransSt) : Option (String × String × List String × TransSt) :=
  match fuel with
  | 0 => none
  | fuel + 1 =>
    match props with
    | [] => some (url, mth, body, s)
    | .otherProp :: rest => requestScan fuel rest url mth body s
    | .assign nameN init :: rest =>
      let nm := getText nameN
      let val := escapeJavaString init
      if nm = "url" then requestScan fuel rest val mth body s
      else if nm = "method" then requestScan fuel rest url (removeQuoteChars val) body s
      else if nm = "body" then
        match init with
        | .objLit ps =>
          match visitProperties fuel (plToList ps) "jsonObject" s with
          | none => none
          | some (lines, s') =>
            requestScan fuel rest url mth
              (body ++ ["JsonObject jsonObject = new JsonObject()"] ++ lines ++
                ["String inputString = jsonObject.toString()"]) s'
        | _ => requestScan fuel rest url mth (body ++ ["String inputString = " ++ val]) s
      else requestScan fuel rest url mth body s

/-- `visitProperty(prop, parentName)` of the nested-body builder (lines
1128-1148), returning the builder lines it pushes. -/
def visitProperty (fuel : Nat) (prop : OProp) (parentName : String) (s : TransSt) :
    Option (List String × TransSt) :=
  match fuel with
  | 0 => none
  | fuel + 1 =>
    match prop with
    | .otherProp => some ([], s)
    | .assign nameN init =>
      let key := "\"" ++ stripOuterSQ (stripOuterDQ (escapeJavaString nameN)) ++ "\""
      match init with
      | .objLit ps =>
        let tempVarName := key ++ "Inner" ++ natToDec s.tempVarIndex
        let s1 := bumpIdx (recordDecl (key ++ "Inner") s.tempVarIndex s)
        match visitProperties fuel (plToList ps) tempVarName s1 with
        | none => none
        | some (lines, s2) =>
          some (["JsonObject " ++ tempVarName ++ " = new JsonObject()"] ++ lines ++
            [parentName ++ ".add(" ++ key ++ ", " ++ tempVarName ++ ")"], s2)
      | _ =>
        some ([parentName ++ ".addProperty(" ++ key ++ ", " ++ escapeJavaString init ++ ")"], s)

/-- `prop.initializer.properties.forEach((p) => visitProperty(p, parent))`. -/
def visitProperties (fuel : Nat) (props : List OProp) (parentName : String) (s : TransSt) :
    Option (List String × TransSt) :=
  match fuel with
  | 0 => none
  | fuel + 1 =>
    match props with
    | [] => some ([], s)
    | p :: rest =>
      match visitProperty fuel p parentName s with
      | none => none
      | some (lines, s') =>
        match visitProperties fuel rest parentName s' with
        | none => none
        | some (lines', s'') => some (lines ++ lines', s'')

/-- The `visitNode` closure produced by `createVisitNode` (lines 1268-1324),
invoked on one node.  Note that every recursion into children goes through
`getVisitFunc()`, i.e. prefers the captured outer visitor. -/
def visitNode (fuel : Nat) (registry : List String) (v : Visitor) (node : Node)
    (s : TransSt) : Option TransSt :=
  match fuel with
  | 0 => none
  | fuel + 1 =>
    match node with
    | .call callee args =>
      match extractChain (.call callee args) with
      | none => none
      | some chain =>
        match convertChainToJava fuel registry chain v.getVisitFunc v.driverName s with
        | none => none
        | some (javaChain, s') =>
          some (appendOutput v.outId (getIndent s' ++ javaChain ++ "\n") s')
    | .ifStmt cond thenS =>
      let s := appendOutput v.outId (getIndent s ++ "if (" ++ getText cond ++ ") \x7b\n") s
      match visitNode fuel registry v.getVisitFunc thenS (incIndent s) with
      | none => none
      | some s1 =>
        some (appendOutput v.outId (getIndent (decIndent s1) ++ "\x7d\n") (decIndent s1))
    | .ifElseStmt cond thenS elseS =>
      let s := appendOutput v.outId (getIndent s ++ "if (" ++ getText cond ++ ") \x7b\n") s
      match visitNode fuel registry v.getVisitFunc thenS (incIndent s) with
      | none => none
      | some s1 =>
        let s2 := appendOutput v.outId (getIndent (decIndent s1) ++ "\x7d\n") (decIndent s1)
        let s3 := appendOutput v.outId (getIndent s2 ++ "else \x7b\n") s2
        match visitNode fuel registry v.getVisitFunc elseS (incIndent s3) with
        | none => none
        | some s4 =>
          some (appendOutput v.outId (getIndent (decIndent s4) ++ "\x7d\n") (decIndent s4))
    | .forStmt initTxt condTxt incrTxt body =>
      let s := appendOutput v.outId
        (getIndent s ++ "for (" ++ initTxt ++ "; " ++ condTxt ++ "; " ++ incrTxt ++ ") \x7b\n") s
      match visitNode fuel registry v.getVisitFunc body (incIndent s) with
      | none => none
      | some s1 =>
        some (appendOutput v.outId (getIndent (decIndent s1) ++ "\x7d\n") (decIndent s1))
    | .whileStmt cond body =>
      let s := appendOutput v.outId (getIndent s ++ "while (" ++ getText cond ++ ") \x7b\n") s
      match visitNode fuel registry v.getVisitFunc body (incIndent s) with
      | none => none
      | some s1 =>
        some (appendOutput v.outId (getIndent (decIndent s1) ++ "\x7d\n") (decIndent s1))
    | other => visitNodes fuel registry v.getVisitFunc (nodeChildren other) s

/-- `node.forEachChild(cb)`: apply the same callback to each child in order. -/
def visitNodes (fuel : Nat) (registry : List String) (v : Visitor) (nodes : List Node)
    (s : TransSt) : Option TransSt :=
  match fuel with
  | 0 => none
  | fuel + 1 =>
    match nodes with
    | [] => some s
    | n :: rest =>
      match visitNode fuel registry v n s with
      | none => none
      | some s' => visitNodes fuel registry v rest s'

end

/-! ## Claim theorems about the chain translator -/

/-- `ts.isFunctionLike` restricted to the modelled node kinds (it tolerates
`undefined`, returning false). -/
def isFunctionLike : Node → Bool
  | .arrowFn _ => true
  | _ => false

/-- The verbs with a dedicated `case` in `convertCyChainToJava`'s switch. -/
def handledVerbs : List String :=
  ["contains", "get", "find", "eq", "first", "last", "click", "type", "should",
   "visit", "request", "then", "within", "wait"]

/-- C7: for every chain step `should('not.exist')`, whatever the buffer held
as its last fragment `f` (the previously built lookup expression), the step
replaces it by a `try` opener, followed inside the try by the lookup and an
unconditional `AssertJUnit.fail` call, followed by a catch clause for
`NoSuchElementException` with an empty body; nothing else changes. -/
theorem should_not_exist_wraps_try (fuel : Nat) (registry : List String) (vf : Visitor)
    (driverName : String) (i len : Nat) (es : List String) (f : String) (s : TransSt) :
    convertStep (fuel + 1) registry vf driverName i len ⟨"should", [.strLit "not.exist"]⟩
        (es ++ [f]) s =
      some (es ++ ["try \x7b", "    " ++ f,
        "    AssertJUnit.fail(\"Element should not exist\")",
        "\x7d catch (NoSuchElementException e) \x7b\x7d"], s) := by
  simp [convertStep, setLast, lastFrag, addToLast]

theorem convertStep_first_eq_eq0 (f : Nat) (reg : List String) (vf : Visitor) (d : String)
    (i len : Nat) (expr : List String) (s : TransSt) :
    convertStep (f + 1) reg vf d i len ⟨"first", []⟩ expr s =
    convertStep (f + 1) reg vf d i len ⟨"eq", [.numLit "0"]⟩ expr s := by
  simp [convertStep]

/-- C8: for every selector literal, receiver, registry, state and fuel,
translating `get(sel).first()` and translating `get(sel).eq(0)` produce
identical results; concretely both rewrite the single-element lookup into a
multi-element lookup (`findElement` to `findElements`) and append `.get(0)`. -/
theorem first_eq_zero_equivalent :
    (∀ (fuel : Nat) (reg : List String) (vf : Visitor) (d sel : String) (s : TransSt),
      convertCyChainToJava fuel reg [⟨"get", [.strLit sel]⟩, ⟨"first", []⟩] vf d s =
      convertCyChainToJava fuel reg [⟨"get", [.strLit sel]⟩, ⟨"eq", [.numLit "0"]⟩] vf d s) ∧
    convertCyChainToJava 20 [] [⟨"get", [.strLit ".item"]⟩, ⟨"first", []⟩]
        (.mk 0 "driver" none) "driver" ⟨0, 0, [""], []⟩ =
      some ("driver.findElements(By.cssSelector(\".item\")).get(0);", ⟨0, 0, [""], []⟩) := by
  constructor
  · intro fuel reg vf d sel s
    cases fuel with
    | zero => rfl
    | succ f =>
      simp only [convertCyChainToJava]
      cases f with
      | zero => rfl
      | succ f2 =>
        simp only [convertCyLoop, List.length_cons, List.length_nil]
        cases hg : convertStep f2 reg vf d 0 2 ⟨"get", [.strLit sel]⟩ [d] s with
        | none => simp [hg]
        | some r =>
          simp only [hg]
          cases f2 with
          | zero => simp [convertStep] at hg
          | succ f3 =>
            simp only [convertCyLoop]
            cases f3 with
            | zero => rfl
            | succ f4 => rw [convertStep_first_eq_eq0]
  · decide

/-- The chain item `request({ url: <url literal>, method: 'post', body: { a: <vtext> } })`. -/
def requestPostItem (url vtext : String) : ChainItem :=
  ⟨"request", [.objLit (.cons (.assign (.ident "url") (.strLit url))
    (.cons (.assign (.ident "method") (.strLit "post"))
      (.cons (.assign (.ident "body")
        (.objLit (.cons (.assign (.ident "a") (.numLit vtext)) .nil))) .nil)))]⟩

/-- C6: translating a chain whose first (and only) item is `request` with an
object-literal argument `{ url, method: 'post', body: { a: v } }` discards the
previously buffered fragment (the receiver `d` does not occur in the output at
all), then emits a connection statement for the given url, a
`setRequestMethod` statement with the method upper-cased to `POST`, and —
because a body object is present — `setDoOutput`, the builder sequence adding
the body key/value, the serialize-to-string statement, and the output-stream
statements writing the serialized bytes, in that order. -/
theorem request_post_with_body (fuel : Nat) (reg : List String) (vf : Visitor) (d : String)
    (s : TransSt) (url vtext : String) :
    convertCyChainToJava (fuel + 9) reg [requestPostItem url vtext] vf d s =
      some (String.intercalate (";\n" ++ getIndent s)
        ["HttpURLConnection conn = (HttpURLConnection) new URL(" ++
           escapeJavaString (.strLit url) ++ ").openConnection()",
         "conn.setRequestMethod(\"POST\")",
         "conn.setDoOutput(true)",
         "JsonObject jsonObject = new JsonObject()",
         "jsonObject.addProperty(\"a\", " ++ vtext ++ ")",
         "String inputString = jsonObject.toString()",
         "try(OutputStream os = conn.getOutputStream()) \x7b",
         "    byte[] input = inputString.getBytes(\"utf-8\")",
         "    os.write(input, 0, input.length)",
         "\x7d"] ++ ";", s) := by
  rw [show ("conn.setRequestMethod(\"POST\")" : String) =
      "conn.setRequestMethod(\"" ++ strUpper (removeQuoteChars (escapeJavaString (.strLit "post"))) ++ "\")"
    from by decide]
  have hkey : stripOuterSQ (stripOuterDQ "a") = "a" := by decide
  simp [requestPostItem, convertCyChainToJava, convertCyLoop, convertStep, requestScan,
    visitProperties, visitProperty, getText, plToList, hkey, escapeJavaString]

/-- C9 counterexample: translating `get('#a').within('x')` — a `within` step
whose argument is not a function — emits **no** inline diagnostic at all (the
`within` handler has no else branch): the output is just the untouched lookup
statement, and the only effect of the step is one consumed counter value.
This refutes the half of the claim that says `within` with a non-callback
argument appends a diagnostic. -/
theorem within_nonfn_no_diagnostic :
    convertCyChainToJava 20 [] [⟨"get", [.strLit "#a"]⟩, ⟨"within", [.strLit "x"]⟩]
        (.mk 0 "driver" none) "driver" ⟨0, 0, [""], []⟩ =
      some ("driver.findElement(By.cssSelector(\"#a\"));", ⟨1, 0, [""], []⟩) ∧
    strContains "driver.findElement(By.cssSelector(\"#a\"));" "unsupported" = false := by
  decide

/-- C9 (amended): for every chain step `then(arg)` whose argument is not a
function, the translator appends an inline diagnostic to the statement buffer
and emits no nested translation; for every chain step `within(arg)` whose
argument is not a function, the translator emits neither a diagnostic nor a
nested translation — the step leaves the buffer unchanged and only consumes
one counter value. -/
theorem then_within_nonfn_steps (f : Nat) (reg : List String) (vf : Visitor) (d : String)
    (i len : Nat) (arg : Node) (expr : List String) (s : TransSt)
    (h : isFunctionLike arg = false) :
    convertStep (f + 1) reg vf d i len ⟨"then", [arg]⟩ expr s =
      some (expr ++ ["/* unsupported then syntax(" ++ restorationChain ⟨"then", [arg]⟩ ++ ") */"], s) ∧
    convertStep (f + 1) reg vf d i len ⟨"within", [arg]⟩ expr s = some (expr, bumpIdx s) := by
  cases arg <;> simp_all [convertStep, isFunctionLike, restorationChain]

/-- C9 amendment witness at a concrete non-function argument. -/
theorem then_within_nonfn_steps_witness :
    isFunctionLike (.strLit "x") = false ∧
      (convertStep 1 [] (.mk 0 "driver" none) "driver" 1 2 ⟨"then", [.strLit "x"]⟩ ["driver"]
          ⟨0, 0, [""], []⟩ =
        some (["driver", "/* unsupported then syntax(" ++
          restorationChain ⟨"then", [.strLit "x"]⟩ ++ ") */"], ⟨0, 0, [""], []⟩) ∧
      convertStep 1 [] (.mk 0 "driver" none) "driver" 1 2 ⟨"within", [.strLit "x"]⟩ ["driver"]
          ⟨0, 0, [""], []⟩ =
        some (["driver"], bumpIdx ⟨0, 0, [""], []⟩)) :=
  ⟨rfl, then_within_nonfn_steps 0 [] (.mk 0 "driver" none) "driver" 1 2 (.strLit "x")
    ["driver"] ⟨0, 0, [""], []⟩ rfl⟩

/-- A two-verb fluent chain call `cy.v1(a1).v2(a2)`. -/
def mkCyCall2 (v1 : String) (a1 : List Node) (v2 : String) (a2 : List Node) : Node :=
  .call (.propAccess (.call (.propAccess (.ident "cy") v1) (listToNL a1)) v2) (listToNL a2)

/-- The statement `cy.get('#a').within(() => { cy.get('#b').click(); });`. -/
def withinStmt : Node :=
  .exprStmt (.call (.propAccess (.call (.propAccess (.ident "cy") "get") (listToNL [.strLit "#a"]))
      "within")
    (listToNL [.arrowFn (.block (listToNL [.exprStmt (mkCyCall2 "get" [.strLit "#b"] "click" [])]))]))

/-- What the walker actually emits for `withinStmt`. -/
def withinBugOutput : String :=
  "driver.findElement(By.cssSelector(\"#b\")).click();\nWebElement scopeElement0 = driver.findElement(By.cssSelector(\"#a\"));\n;\nscopeElement0;\n"

/-- C5 (code bug): the `within` handler does declare exactly one scope temp
variable `scopeElement0` bound to the prior fragment's locator expression, but
the chain inside the callback is **not** translated with that scope variable
as its receiver: because the inner visitor's `getVisitFunc()` prefers the
captured outer visitor for every non-call child, the inner chain
`cy.get('#b').click()` is translated with the original receiver `driver` and
appended to the outer output *before* the scope declaration, while the
callback's own statement buffer stays empty (the stray `;\n;` in the output).
The emitted text never uses `scopeElement0` as a receiver. -/
theorem within_callback_scoping_bug :
    visitNode 30 [] (.mk 0 "driver" none) withinStmt ⟨0, 0, [""], []⟩ =
      some ⟨1, 0, [withinBugOutput, ""], [("scopeElement", 0)]⟩ ∧
    strContains withinBugOutput "scopeElement0.findElement" = false ∧
    strContains withinBugOutput "driver.findElement(By.cssSelector(\"#b\")).click()" = true := by
  decide

/-- The statement `cy.get('#a').bogus().click();`. -/
def bogusStmt : Node :=
  .exprStmt (.call (.propAccess (mkCyCall2 "get" [.strLit "#a"] "bogus" []) "click") .nil)

/-- The sibling statement `cy.get('#b').click();`. -/
def siblingStmt : Node := .exprStmt (mkCyCall2 "get" [.strLit "#b"] "click" [])

/-- C3: for every verb neither in the fixed vocabulary nor in the registry,
translating `get(sel).verb().click()` succeeds (never aborts) and leaves the
state unchanged; the output contains the inline diagnostic naming the verb
together with `restorationChain`'s reconstruction of its call text, and still
contains the translated `click()` of the same chain.  Moreover (second
conjunct) a sibling statement after the failing chain is still translated:
walking `cy.get('#a').bogus().click(); cy.get('#b').click();` emits both the
diagnostic-bearing first statement and the complete second statement. -/
theorem unknown_verb_soft_fail :
    (∀ (fuel : Nat) (reg : List String) (vf : Visitor) (d sel verb : String) (s : TransSt),
      verb ∉ handledVerbs → verb ∉ reg →
      ∃ out, convertCyChainToJava (fuel + 5) reg
          [⟨"get", [.strLit sel]⟩, ⟨verb, []⟩, ⟨"click", []⟩] vf d s = some (out, s) ∧
        (∃ p q, out = p ++ ("/* unsupported method: " ++ verb ++ "(" ++
          restorationChain ⟨verb, []⟩ ++ ") */") ++ q) ∧
        (∃ p, out = p ++ ".click()" ++ ";")) ∧
    visitNodes 30 [] (.mk 0 "driver" none) [bogusStmt, siblingStmt] ⟨0, 0, [""], []⟩ =
      some ⟨0, 0,
        ["driver.findElement(By.cssSelector(\"#a\"))/* unsupported method: bogus(.bogus()) */.click();\ndriver.findElement(By.cssSelector(\"#b\")).click();\n"],
        []⟩ := by
  constructor
  · intro fuel reg vf d sel verb s hv hr
    simp only [handledVerbs, List.mem_cons, List.not_mem_nil, or_false] at hv
    push_neg at hv
    obtain ⟨h1, h2, h3, h4, h5, h6, h7, h8, h9, h10, h11, h12, h13, h14⟩ := hv
    have hcomp : convertCyChainToJava (fuel + 5) reg
        [⟨"get", [.strLit sel]⟩, ⟨verb, []⟩, ⟨"click", []⟩] vf d s =
        some ((d ++ (".findElement(" ++ ("By.cssSelector(" ++ escapeJavaString (.strLit sel) ++ ")") ++ ")") ++
          ("/* unsupported method: " ++ verb ++ "(" ++ restorationChain ⟨verb, []⟩ ++ ") */") ++
          ".click()") ++ ";", s) := by
      simp [convertCyChainToJava, convertCyLoop, convertStep, h1, h2, h3, h4, h5, h6, h7,
        h8, h9, h10, h11, h12, h13, h14, hr, addToLast, setLast, lastFrag]
      rfl
    refine ⟨_, hcomp, ⟨d ++ (".findElement(" ++ ("By.cssSelector(" ++
        escapeJavaString (.strLit sel) ++ ")") ++ ")"), ".click()" ++ ";", ?_⟩,
      ⟨d ++ (".findElement(" ++ ("By.cssSelector(" ++ escapeJavaString (.strLit sel) ++ ")") ++ ")") ++
        ("/* unsupported method: " ++ verb ++ "(" ++ restorationChain ⟨verb, []⟩ ++ ") */"), ?_⟩⟩
    · simp [String.append_assoc]
    · simp [String.append_assoc]
  · decide

/-- C3 witness at the verb `bogus`. -/
theorem unknown_verb_soft_fail_witness :
    "bogus" ∉ handledVerbs ∧ "bogus" ∉ ([] : List String) ∧
      (∃ out, convertCyChainToJava 5 []
          [⟨"get", [.strLit "#a"]⟩, ⟨"bogus", []⟩, ⟨"click", []⟩]
          (.mk 0 "driver" none) "driver" ⟨0, 0, [""], []⟩ =
          some (out, ⟨0, 0, [""], []⟩) ∧
        (∃ p q, out = p ++ ("/* unsupported method: " ++ "bogus" ++ "(" ++
          restorationChain ⟨"bogus", []⟩ ++ ") */") ++ q) ∧
        (∃ p, out = p ++ ".click()" ++ ";")) :=
  ⟨by decide, by decide,
    unknown_verb_soft_fail.1 0 [] (.mk 0 "driver" none) "driver" "#a" "bogus"
      ⟨0, 0, [""], []⟩ (by decide) (by decide)⟩

/-! ## C2 machinery: distinctness of emitted temp-variable names -/

/-- The name of a ghost-recorded declaration. -/
def declName (d : String × Nat) : String := d.1 ++ natToDec d.2

/-- A name stem is acceptable when it is non-empty and does not end in a
decimal digit (true of `element`, `elements`, `scopeElement` and every
`..."Inner` stem). -/
def stemOkB (p : String) : Bool :=
  match p.data.getLast? with
  | none => false
  | some c => !chIsDigit c

/-- Decimal value of a digit list. -/
def natVal : List Char → Nat := List.foldl (fun acc c => 10 * acc + (c.toNat - 48)) 0

theorem natVal_append_digit (l : List Char) (c : Char) :
    natVal (l ++ [c]) = 10 * natVal l + (c.toNat - 48) := by
  simp [natVal, List.foldl_append]

theorem digitCh_toNat (m : Nat) (hm : m < 10) : (digitCh m).toNat = 48 + m := by
  interval_cases m <;> decide

theorem chIsDigit_digitCh (m : Nat) (hm : m < 10) : chIsDigit (digitCh m) = true := by
  interval_cases m <;> decide

theorem natDecAux_val : ∀ fuel n, n < fuel → natVal (natDecAux fuel n) = n := by
  intro fuel
  induction fuel with
  | zero => intro n hn; omega
  | succ f ih =>
    intro n hn
    by_cases h10 : n < 10
    · simp only [natDecAux, if_pos h10]
      show natVal ([] ++ [digitCh n]) = n
      rw [natVal_append_digit, digitCh_toNat n h10]
      simp [natVal]
    · have hdiv : n / 10 < f := by omega
      simp only [natDecAux, if_neg h10]
      rw [natVal_append_digit, ih (n / 10) hdiv, digitCh_toNat (n % 10) (by omega)]
      omega

theorem natDecAux_all_digits : ∀ fuel n, n < fuel →
    ∀ c ∈ natDecAux fuel n, chIsDigit c = true := by
  intro fuel
  induction fuel with
  | zero => intro n hn; omega
  | succ f ih =>
    intro n hn c hc
    by_cases h10 : n < 10
    · simp only [natDecAux, if_pos h10, List.mem_singleton] at hc
      subst hc
      exact chIsDigit_digitCh n h10
    · simp only [natDecAux, if_neg h10, List.mem_append, List.mem_singleton] at hc
      rcases hc with hc | hc
      · exact ih (n / 10) (by omega) c hc
      · subst hc
        exact chIsDigit_digitCh (n % 10) (by omega)

theorem natToDec_inj {n1 n2 : Nat} (h : natToDec n1 = natToDec n2) : n1 = n2 := by
  have hd : natDecAux (n1 + 1) n1 = natDecAux (n2 + 1) n2 := by
    have := congrArg String.data h
    simpa [natToDec] using this
  have v1 := natDecAux_val (n1 + 1) n1 (by omega)
  have v2 := natDecAux_val (n2 + 1) n2 (by omega)
  rw [hd, v2] at v1
  omega

theorem natToDec_all_digits (n : Nat) : ∀ c ∈ (natToDec n).data, chIsDigit c = true := by
  intro c hc
  simp only [natToDec] at hc
  exact natDecAux_all_digits (n + 1) n (by omega) c hc

theorem append_digits_cancel {l1 l2 d1 d2 : List Char}
    (h : l1 ++ d1 = l2 ++ d2)
    (hd1 : ∀ c ∈ d1, chIsDigit c = true) (hd2 : ∀ c ∈ d2, chIsDigit c = true)
    (hl1 : ∃ c, l1.getLast? = some c ∧ chIsDigit c = false)
    (hl2 : ∃ c, l2.getLast? = some c ∧ chIsDigit c = false) :
    d1 = d2 := by
  rcases List.append_eq_append_iff.mp h with ⟨m, hc, hb⟩ | ⟨m, ha, hd⟩
  · cases m with
    | nil => simpa using hb
    | cons x xs =>
      obtain ⟨c, hcl, hcd⟩ := hl2
      rw [hc, List.getLast?_append_of_ne_nil l1 (by simp)] at hcl
      obtain ⟨hne, hcc⟩ := List.mem_getLast?_eq_getLast (l := x :: xs) (x := c) (by simp [hcl])
      have hmem : c ∈ x :: xs := hcc ▸ List.getLast_mem hne
      have hcdig : chIsDigit c = true := by
        apply hd1
        rw [hb]
        exact List.mem_append_left _ hmem
      rw [hcdig] at hcd
      cases hcd
  · cases m with
    | nil => rw [List.nil_append] at hd; rw [hd]
    | cons x xs =>
      obtain ⟨c, hcl, hcd⟩ := hl1
      rw [ha, List.getLast?_append_of_ne_nil l2 (by simp)] at hcl
      obtain ⟨hne, hcc⟩ := List.mem_getLast?_eq_getLast (l := x :: xs) (x := c) (by simp [hcl])
      have hmem : c ∈ x :: xs := hcc ▸ List.getLast_mem hne
      have hcdig : chIsDigit c = true := by
        apply hd2
        rw [hd]
        exact List.mem_append_left _ hmem
      rw [hcdig] at hcd
      cases hcd

theorem declName_inj {p1 p2 : String} {n1 n2 : Nat}
    (h1 : stemOkB p1 = true) (h2 : stemOkB p2 = true) (hne : n1 ≠ n2) :
    declName (p1, n1) ≠ declName (p2, n2) := by
  intro h
  have hd : p1.data ++ (natToDec n1).data = p2.data ++ (natToDec n2).data := by
    have := congrArg String.data h
    simpa [declName, String.data_append] using this
  have hl1 : ∃ c, p1.data.getLast? = some c ∧ chIsDigit c = false := by
    unfold stemOkB at h1
    rcases hg : p1.data.getLast? with _ | c
    · rw [hg] at h1; simp at h1
    · rw [hg] at h1; simp at h1; exact ⟨c, rfl, h1⟩
  have hl2 : ∃ c, p2.data.getLast? = some c ∧ chIsDigit c = false := by
    unfold stemOkB at h2
    rcases hg : p2.data.getLast? with _ | c
    · rw [hg] at h2; simp at h2
    · rw [hg] at h2; simp at h2; exact ⟨c, rfl, h2⟩
  have heq := append_digits_cancel hd (natToDec_all_digits n1) (natToDec_all_digits n2) hl1 hl2
  exact hne (natToDec_inj (String.ext heq))

/-- The ghost declarations `ds` were all allocated in the counter window
`[lo, hi)`, have acceptable stems, and use pairwise distinct counter values. -/
def DeclsIn (lo hi : Nat) (ds : List (String × Nat)) : Prop :=
  (∀ d ∈ ds, lo ≤ d.2 ∧ d.2 < hi ∧ stemOkB d.1 = true) ∧
    ds.Pairwise (fun a b => a.2 ≠ b.2)

theorem DeclsIn.mono {lo hi lo' hi' : Nat} {ds : List (String × Nat)}
    (h : DeclsIn lo hi ds) (h1 : lo' ≤ lo) (h2 : hi ≤ hi') : DeclsIn lo' hi' ds := by
  refine ⟨fun d hd => ?_, h.2⟩
  obtain ⟨a, b, c⟩ := h.1 d hd
  exact ⟨by omega, by omega, c⟩

theorem DeclsIn.append {lo mid hi : Nat} {ds1 ds2 : List (String × Nat)}
    (h2 : DeclsIn mid hi ds2) (h1 : DeclsIn lo mid ds1) (hlm : lo ≤ mid) (hmh : mid ≤ hi) :
    DeclsIn lo hi (ds2 ++ ds1) := by
  constructor
  · intro d hd
    rcases List.mem_append.mp hd with hd | hd
    · obtain ⟨a, b, c⟩ := h2.1 d hd
      exact ⟨by omega, b, c⟩
    · obtain ⟨a, b, c⟩ := h1.1 d hd
      exact ⟨a, by omega, c⟩
  · rw [List.pairwise_append]
    refine ⟨h2.2, h1.2, fun a ha b hb => ?_⟩
    have h2a := (h2.1 a ha).1
    have h1b := (h1.1 b hb).2.1
    omega

theorem DeclsIn.single (lo : Nat) (stem : String) (h : stemOkB stem = true) :
    DeclsIn lo (lo + 1) [(stem, lo)] := by
  exact ⟨by simp [h], by simp⟩

/-- `Extends s s'`: going from state `s` to state `s'`, the translator only
advanced the counter and prepended ghost declarations drawn from counter
values that were fresh in between. -/
def Extends (s s' : TransSt) : Prop :=
  s.tempVarIndex ≤ s'.tempVarIndex ∧
    ∃ ds, s'.decls = ds ++ s.decls ∧ DeclsIn s.tempVarIndex s'.tempVarIndex ds

theorem extends_of_eq {s s' : TransSt} (hi : s'.tempVarIndex = s.tempVarIndex)
    (hd : s'.decls = s.decls) : Extends s s' := by
  refine ⟨by omega, [], by simp [hd], by simp [DeclsIn]⟩

theorem extends_refl (s : TransSt) : Extends s s := extends_of_eq rfl rfl

theorem extends_trans {a b c : TransSt} (h1 : Extends a b) (h2 : Extends b c) : Extends a c := by
  obtain ⟨hi1, ds1, hd1, hin1⟩ := h1
  obtain ⟨hi2, ds2, hd2, hin2⟩ := h2
  refine ⟨by omega, ds2 ++ ds1, by simp [hd2, hd1], ?_⟩
  exact DeclsIn.append hin2 hin1 hi1 hi2

theorem extends_bump (s : TransSt) : Extends s (bumpIdx s) := by
  refine ⟨by simp [bumpIdx], [], by simp [bumpIdx], by simp [DeclsIn]⟩

theorem extends_record_bump (s : TransSt) (stem : String) (h : stemOkB stem = true) :
    Extends s (bumpIdx (recordDecl stem s.tempVarIndex s)) := by
  refine ⟨by simp [bumpIdx, recordDecl], [(stem, s.tempVarIndex)],
    by simp [bumpIdx, recordDecl], ?_⟩
  simpa [bumpIdx, recordDecl] using DeclsIn.single s.tempVarIndex stem h

theorem stemOkB_append_inner (k : String) : stemOkB (k ++ "Inner") = true := by
  unfold stemOkB
  rw [String.data_append, List.getLast?_append_of_ne_nil _ (show ("Inner" : String).data ≠ [] by decide)]
  decide

/-- All translator entry points only extend the state in the sense of
`Extends`: the counter is monotone and every ghost declaration recorded during
the call used a counter value that was fresh at its allocation. -/
def ExtendsAll (fuel : Nat) : Prop :=
  (∀ reg chain vf d s r, convertChainToJava fuel reg chain vf d s = some r → Extends s r.2) ∧
  (∀ reg chain vf d s r, convertCyChainToJava fuel reg chain vf d s = some r → Extends s r.2) ∧
  (∀ reg vf d i len items expr s r,
    convertCyLoop fuel reg vf d i len items expr s = some r → Extends s r.2) ∧
  (∀ reg vf d i len item expr s r,
    convertStep fuel reg vf d i len item expr s = some r → Extends s r.2) ∧
  (∀ props url mth body s r, requestScan fuel props url mth body s = some r → Extends s r.2.2.2) ∧
  (∀ prop parent s r, visitProperty fuel prop parent s = some r → Extends s r.2) ∧
  (∀ props parent s r, visitProperties fuel props parent s = some r → Extends s r.2) ∧
  (∀ reg v node s s', visitNode fuel reg v node s = some s' → Extends s s') ∧
  (∀ reg v nodes s s', visitNodes fuel reg v nodes s = some s' → Extends s s')

set_option maxHeartbeats 3200000 in
theorem extendsAll : ∀ fuel, ExtendsAll fuel := by
  intro fuel
  induction fuel with
  | zero =>
    refine ⟨?_, ?_, ?_, ?_, ?_, ?_, ?_, ?_, ?_⟩
    · intro reg chain vf d s r h; simp [convertChainToJava] at h
    · intro reg chain vf d s r h; simp [convertCyChainToJava] at h
    · intro reg vf d i len items expr s r h; simp [convertCyLoop] at h
    · intro reg vf d i len item expr s r h; simp [convertStep] at h
    · intro props url mth body s r h; simp [requestScan] at h
    · intro prop parent s r h; simp [visitProperty] at h
    · intro props parent s r h; simp [visitProperties] at h
    · intro reg v node s s' h; simp [visitNode] at h
    · intro reg v nodes s s' h; simp [visitNodes] at h
  | succ fuel ih =>
    obtain ⟨ih1, ih2, ih3, ih4, ih5, ih6, ih7, ih8, ih9⟩ := ih
    refine ⟨?_, ?_, ?_, ?_, ?_, ?_, ?_, ?_, ?_⟩
    · -- convertChainToJava
      intro reg chain vf d s r h
      cases chain with
      | nil => simp [convertChainToJava] at h
      | cons item0 rest =>
        simp only [convertChainToJava] at h
        split at h
        · cases h; exact extends_refl s
        · exact ih2 _ _ _ _ _ _ h
    · -- convertCyChainToJava
      intro reg chain vf d s r h
      simp only [convertCyChainToJava] at h
      split at h
      · simp at h
      · rename_i e1 s1 heq
        cases h
        exact ih3 _ _ _ _ _ _ _ _ _ heq
    · -- convertCyLoop
      intro reg vf d i len items expr s r h
      cases items with
      | nil => simp only [convertCyLoop] at h; cases h; exact extends_refl s
      | cons item rest =>
        simp only [convertCyLoop] at h
        split at h
        · simp at h
        · rename_i e1 s1 heq
          have ha := ih4 _ _ _ _ _ _ _ _ _ heq
          have hb := ih3 _ _ _ _ _ _ _ _ _ h
          exact extends_trans ha hb
    · -- convertStep
      intro reg vf d i len item expr s r h
      obtain ⟨m, args⟩ := item
      rw [convertStep.eq_def] at h
      split at h
      · simp at h
      rename_i fl heq0
      have hfl : fl = fuel := by omega
      subst hfl
      simp only at h
      by_cases hc1 : m = "contains" ∧ i ≠ 0 ∧ i = len - 1
      · rw [if_pos hc1] at h
        cases args with
        | nil => simp at h
        | cons a rest => cases h; exact extends_record_bump s "element" (by decide)
      · rw [if_neg hc1] at h
        by_cases hc2 : m = "contains" ∨ m = "get" ∨ m = "find"
        · rw [if_pos hc2] at h
          cases args with
          | nil => simp at h
          | cons a rest => cases h; exact extends_refl s
        · rw [if_neg hc2] at h
          by_cases hc3 : m = "eq"
          · rw [if_pos hc3] at h
            split at h <;> (cases h; exact extends_refl s)
          · rw [if_neg hc3] at h
            by_cases hc4 : m = "first"
            · rw [if_pos hc4] at h
              cases h; exact extends_refl s
            · rw [if_neg hc4] at h
              by_cases hc5 : m = "last"
              · rw [if_pos hc5] at h
                cases h; exact extends_record_bump s "elements" (by decide)
              · rw [if_neg hc5] at h
                by_cases hc6 : m = "click"
                · rw [if_pos hc6] at h
                  cases h; exact extends_refl s
                · rw [if_neg hc6] at h
                  by_cases hc7 : m = "type"
                  · rw [if_pos hc7] at h
                    cases args with
                    | nil => simp at h
                    | cons a rest => cases h; exact extends_refl s
                  · rw [if_neg hc7] at h
                    by_cases hc8 : m = "should"
                    · rw [if_pos hc8] at h
                      split at h
                      · split at h
                        · cases h; exact extends_record_bump s "element" (by decide)
                        · split at h
                          · cases h; exact extends_record_bump s "element" (by decide)
                          · split at h
                            · cases h; exact extends_refl s
                            · cases h; exact extends_refl s
                      · cases h; exact extends_refl s
                    · rw [if_neg hc8] at h
                      by_cases hc9 : m = "visit"
                      · rw [if_pos hc9] at h
                        cases args with
                        | nil => simp at h
                        | cons a rest => cases h; exact extends_refl s
                      · rw [if_neg hc9] at h
                        by_cases hc10 : m = "request"
                        · rw [if_pos hc10] at h
                          cases args with
                          | nil => simp at h
                          | cons options rest =>
                            cases options with
                            | strLit t =>
                              simp at h
                              subst h
                              exact extends_refl s
                            | objLit props =>
                              simp only at h
                              cases hrs : requestScan fl (plToList props) "" "GET" [] s with
                              | none => simp [hrs] at h
                              | some q =>
                                obtain ⟨url2, mth2, body2, s1⟩ := q
                                simp only [hrs] at h
                                have ha := ih5 _ _ _ _ _ _ hrs
                                by_cases hb : body2 = []
                                · rw [if_pos hb] at h
                                  cases h
                                  exact ha
                                · rw [if_neg hb] at h
                                  cases h
                                  exact ha
                            | ident n => cases h; exact extends_refl s
                            | numLit t => cases h; exact extends_refl s
                            | propAccess o nm2 => cases h; exact extends_refl s
                            | call c a2 => cases h; exact extends_refl s
                            | arrowFn b => cases h; exact extends_refl s
                            | block ss => cases h; exact extends_refl s
                            | exprStmt e => cases h; exact extends_refl s
                            | ifStmt c t => cases h; exact extends_refl s
                            | ifElseStmt c t e => cases h; exact extends_refl s
                            | forStmt i1 c1 n1 b => cases h; exact extends_refl s
                            | whileStmt c b => cases h; exact extends_refl s
                            | paren e => cases h; exact extends_refl s
                            | otherNode cs t => cases h; exact extends_refl s
                        · rw [if_neg hc10] at h
                          by_cases hc11 : m = "then"
                          · rw [if_pos hc11] at h
                            cases args with
                            | nil => cases h; exact extends_refl s
                            | cons a rest =>
                              cases a with
                              | arrowFn body =>
                                simp only at h
                                cases hvn : visitNodes fl reg
                                    (Visitor.mk (newOutput s).1 d (some vf))
                                    (nodeChildren body) (newOutput s).2 with
                                | none => simp [hvn] at h
                                | some s2 =>
                                  simp only [hvn] at h
                                  cases h
                                  have ha := ih9 _ _ _ _ _ hvn
                                  exact extends_trans (extends_of_eq rfl rfl) ha
                              | ident n => cases h; exact extends_refl s
                              | strLit t => cases h; exact extends_refl s
                              | numLit t => cases h; exact extends_refl s
                              | propAccess o nm2 => cases h; exact extends_refl s
                              | call c a2 => cases h; exact extends_refl s
                              | objLit ps => cases h; exact extends_refl s
                              | block ss => cases h; exact extends_refl s
                              | exprStmt e => cases h; exact extends_refl s
                              | ifStmt c t => cases h; exact extends_refl s
                              | ifElseStmt c t e => cases h; exact extends_refl s
                              | forStmt i1 c1 n1 b => cases h; exact extends_refl s
                              | whileStmt c b => cases h; exact extends_refl s
                              | paren e => cases h; exact extends_refl s
                              | otherNode cs t => cases h; exact extends_refl s
                          · rw [if_neg hc11] at h
                            by_cases hc12 : m = "within"
                            · rw [if_pos hc12] at h
                              cases args with
                              | nil => cases h; exact extends_bump s
                              | cons a rest =>
                                cases a with
                                | arrowFn body =>
                                  simp only at h
                                  cases hvn : visitNodes fl reg
                                      (Visitor.mk
                                        (newOutput (bumpIdx (recordDecl "scopeElement" s.tempVarIndex s))).1
                                        ("scopeElement" ++ natToDec s.tempVarIndex) (some vf))
                                      (nodeChildren body)
                                      (newOutput (bumpIdx (recordDecl "scopeElement" s.tempVarIndex s))).2 with
                                  | none => simp [hvn] at h
                                  | some s3 =>
                                    simp only [hvn] at h
                                    cases h
                                    have h1 := extends_record_bump s "scopeElement" (by decide)
                                    have ha := ih9 _ _ _ _ _ hvn
                                    exact extends_trans h1 (extends_trans (extends_of_eq rfl rfl) ha)
                                | ident n => cases h; exact extends_bump s
                                | strLit t => cases h; exact extends_bump s
                                | numLit t => cases h; exact extends_bump s
                                | propAccess o nm2 => cases h; exact extends_bump s
                                | call c a2 => cases h; exact extends_bump s
                                | objLit ps => cases h; exact extends_bump s
                                | block ss => cases h; exact extends_bump s
                                | exprStmt e => cases h; exact extends_bump s
                                | ifStmt c t => cases h; exact extends_bump s
                                | ifElseStmt c t e => cases h; exact extends_bump s
                                | forStmt i1 c1 n1 b => cases h; exact extends_bump s
                                | whileStmt c b => cases h; exact extends_bump s
                                | paren e => cases h; exact extends_bump s
                                | otherNode cs t => cases h; exact extends_bump s
                            · rw [if_neg hc12] at h
                              by_cases hc13 : m = "wait"
                              · rw [if_pos hc13] at h
                                split at h <;> (cases h; exact extends_refl s)
                              · rw [if_neg hc13] at h
                                split at h <;> (cases h; exact extends_refl s)
    · -- requestScan
      intro props url mth body s r h
      cases props with
      | nil => simp only [requestScan] at h; cases h; exact extends_refl s
      | cons p rest =>
        cases p with
        | otherProp => simp only [requestScan] at h; exact ih5 _ _ _ _ _ _ h
        | assign nameN init =>
          simp only [requestScan] at h
          split at h
          · exact ih5 _ _ _ _ _ _ h
          · split at h
            · exact ih5 _ _ _ _ _ _ h
            · split at h
              · split at h
                · split at h
                  · simp at h
                  · rename_i lines s1 heq
                    have ha := ih7 _ _ _ _ heq
                    have hb := ih5 _ _ _ _ _ _ h
                    exact extends_trans ha hb
                · exact ih5 _ _ _ _ _ _ h
              · exact ih5 _ _ _ _ _ _ h
    · -- visitProperty
      intro prop parent s r h
      cases prop with
      | otherProp => simp only [visitProperty] at h; cases h; exact extends_refl s
      | assign nameN init =>
        simp only [visitProperty] at h
        split at h
        · split at h
          · simp at h
          · rename_i lines s2 heq
            cases h
            have h1 := extends_record_bump s
              (("\"" ++ stripOuterSQ (stripOuterDQ (escapeJavaString nameN)) ++ "\"") ++ "Inner")
              (stemOkB_append_inner _)
            have h2 := ih7 _ _ _ _ heq
            exact extends_trans h1 h2
        · cases h; exact extends_refl s
    · -- visitProperties
      intro props parent s r h
      cases props with
      | nil => simp only [visitProperties] at h; cases h; exact extends_refl s
      | cons p rest =>
        simp only [visitProperties] at h
        split at h
        · simp at h
        · rename_i lines s1 heq
          split at h
          · simp at h
          · rename_i lines2 s2 heq2
            cases h
            have ha := ih6 _ _ _ _ heq
            have hb := ih7 _ _ _ _ heq2
            exact extends_trans ha hb
    · -- visitNode
      intro reg v node s s' h
      cases node with
      | call callee args =>
        simp only [visitNode] at h
        split at h
        · simp at h
        · rename_i chain heq
          split at h
          · simp at h
          · rename_i jc s1 heq2
            cases h
            have ha := ih1 _ _ _ _ _ _ heq2
            exact extends_trans ha (extends_of_eq rfl rfl)
      | ifStmt cond thenS =>
        simp only [visitNode] at h
        split at h
        · simp at h
        · rename_i s1 heq
          cases h
          have ha := ih8 _ _ _ _ _ heq
          exact extends_trans (extends_of_eq rfl rfl)
            (extends_trans ha (extends_of_eq rfl rfl))
      | ifElseStmt cond thenS elseS =>
        simp only [visitNode] at h
        split at h
        · simp at h
        · rename_i s1 heq
          split at h
          · simp at h
          · rename_i s4 heq2
            cases h
            have ha := ih8 _ _ _ _ _ heq
            have hb := ih8 _ _ _ _ _ heq2
            exact extends_trans (extends_of_eq rfl rfl)
              (extends_trans ha (extends_trans (extends_of_eq rfl rfl)
                (extends_trans hb (extends_of_eq rfl rfl))))
      | forStmt initTxt condTxt incrTxt body =>
        simp only [visitNode] at h
        split at h
        · simp at h
        · rename_i s1 heq
          cases h
          have ha := ih8 _ _ _ _ _ heq
          exact extends_trans (extends_of_eq rfl rfl)
            (extends_trans ha (extends_of_eq rfl rfl))
      | whileStmt cond body =>
        simp only [visitNode] at h
        split at h
        · simp at h
        · rename_i s1 heq
          cases h
          have ha := ih8 _ _ _ _ _ heq
          exact extends_trans (extends_of_eq rfl rfl)
            (extends_trans ha (extends_of_eq rfl rfl))
      | ident n => exact ih9 _ _ _ _ _ h
      | strLit t => exact ih9 _ _ _ _ _ h
      | numLit t => exact ih9 _ _ _ _ _ h
      | propAccess o n => exact ih9 _ _ _ _ _ h
      | objLit ps => exact ih9 _ _ _ _ _ h
      | arrowFn b => exact ih9 _ _ _ _ _ h
      | block ss => exact ih9 _ _ _ _ _ h
      | exprStmt e => exact ih9 _ _ _ _ _ h
      | paren e => exact ih9 _ _ _ _ _ h
      | otherNode cs t => exact ih9 _ _ _ _ _ h
    · -- visitNodes
      intro reg v nodes s s' h
      cases nodes with
      | nil => simp only [visitNodes] at h; cases h; exact extends_refl s
      | cons n rest =>
        simp only [visitNodes] at h
        split at h
        · simp at h
        · rename_i s1 heq
          have ha := ih8 _ _ _ _ _ heq
          have hb := ih9 _ _ _ _ _ h
          exact extends_trans ha hb

/-- C2: across one entire translation run (a structural-walker pass over a
list of statements, with nested callbacks, request-body builders and chain
translations all sharing the threaded counter), starting from a state with an
empty declaration trace: the counter never decreases, every recorded
temp-variable declaration used a counter value from the window consumed by
the run, and the declared names (`element`/`elements`/`scopeElement`/
`..."Inner` stem followed by the counter value) are pairwise distinct. -/
theorem tempVar_names_distinct (fuel : Nat) (reg : List String) (v : Visitor)
    (nodes : List Node) (s s' : TransSt) (h : visitNodes fuel reg v nodes s = some s')
    (h0 : s.decls = []) :
    s.tempVarIndex ≤ s'.tempVarIndex ∧
    (∀ dcl ∈ s'.decls, s.tempVarIndex ≤ dcl.2 ∧ dcl.2 < s'.tempVarIndex) ∧
    (s'.decls.map declName).Pairwise (· ≠ ·) := by
  have hx := (extendsAll fuel).2.2.2.2.2.2.2.2 reg v nodes s s' h
  obtain ⟨hmono, ds, hds, hin⟩ := hx
  rw [h0, List.append_nil] at hds
  subst hds
  refine ⟨hmono, fun dcl hdcl => ?_, ?_⟩
  · have hb := hin.1 dcl hdcl
    exact ⟨hb.1, hb.2.1⟩
  · rw [List.pairwise_map]
    refine List.Pairwise.imp_of_mem ?_ hin.2
    intro a b ha hb hne
    exact declName_inj (hin.1 a ha).2.2 (hin.1 b hb).2.2 hne

set_option maxRecDepth 4096 in
/-- C2 witness: a run with a `should('be.visible')` chain and a `last()` chain
declares `element0` and `elements1`, distinct names from consecutive counter
values. -/
theorem tempVar_names_distinct_witness :
    visitNodes 30 [] (.mk 0 "driver" none)
        [.exprStmt (mkCyCall2 "get" [.strLit "#a"] "should" [.strLit "be.visible"]),
         .exprStmt (mkCyCall2 "get" [.strLit ".x"] "last" [])] ⟨0, 0, [""], []⟩ =
      some ⟨2, 0,
        ["WebElement element0 = driver.findElement(By.cssSelector(\"#a\"));\nAssertJUnit.assertTrue(element0.isDisplayed());\nelement0;\nList<WebElement> elements1 = driver.findElements(By.cssSelector(\".x\"));\nelements1.get(elements1.size() - 1);\n"],
        [("elements", 1), ("element", 0)]⟩ ∧
      (TransSt.mk 0 0 [""] []).decls = [] ∧
      ((0 : Nat) ≤ (TransSt.mk 2 0
        ["WebElement element0 = driver.findElement(By.cssSelector(\"#a\"));\nAssertJUnit.assertTrue(element0.isDisplayed());\nelement0;\nList<WebElement> elements1 = driver.findElements(By.cssSelector(\".x\"));\nelements1.get(elements1.size() - 1);\n"]
        [("elements", 1), ("element", 0)]).tempVarIndex ∧
      (∀ dcl ∈ (TransSt.mk 2 0
        ["WebElement element0 = driver.findElement(By.cssSelector(\"#a\"));\nAssertJUnit.assertTrue(element0.isDisplayed());\nelement0;\nList<WebElement> elements1 = driver.findElements(By.cssSelector(\".x\"));\nelements1.get(elements1.size() - 1);\n"]
        [("elements", 1), ("element", 0)]).decls, (0 : Nat) ≤ dcl.2 ∧ dcl.2 < 2) ∧
      (((TransSt.mk 2 0
        ["WebElement element0 = driver.findElement(By.cssSelector(\"#a\"));\nAssertJUnit.assertTrue(element0.isDisplayed());\nelement0;\nList<WebElement> elements1 = driver.findElements(By.cssSelector(\".x\"));\nelements1.get(elements1.size() - 1);\n"]
        [("elements", 1), ("element", 0)]).decls.map declName).Pairwise (· ≠ ·))) :=
  ⟨by decide, rfl,
    tempVar_names_distinct 30 [] (.mk 0 "driver" none)
      [.exprStmt (mkCyCall2 "get" [.strLit "#a"] "should" [.strLit "be.visible"]),
       .exprStmt (mkCyCall2 "get" [.strLit ".x"] "last" [])]
      ⟨0, 0, [""], []⟩ _ (by decide) rfl⟩
